import Mathlib

/-!
Verification of the benthos stream-processor core against its
natural-language specification.  Each component relevant to the checked
claims is embedded shallowly: Go loops become structural recursion, Go
maps become association lists, fallible calls return `Except`/`Option`.
-/

namespace Benthos

/-- Association-list lookup keyed by strings, the shallow embedding of a
Go `map[string]T` read (`m[k]`). -/
def lookupStr {α : Type} : List (String × α) → String → Option α
  | [], _ => none
  | (k, v) :: rest, q => if k = q then some v else lookupStr rest q

theorem lookupStr_append {α : Type} (m₁ m₂ : List (String × α)) (q : String) :
    lookupStr (m₁ ++ m₂) q =
      match lookupStr m₁ q with
      | some v => some v
      | none => lookupStr m₂ q := by
  induction m₁ with
  | nil => rfl
  | cons kv rest ih =>
    obtain ⟨k, v⟩ := kv
    by_cases h : k = q
    · simp [lookupStr, h]
    · simp [lookupStr, h, ih]

theorem lookupStr_singleton {α : Type} (k q : String) (v : α) :
    lookupStr [(k, v)] q = if k = q then some v else none := by
  by_cases h : k = q <;> simp [lookupStr, h]

namespace GroupByValue

/-!
Embedding of `groupByValueProc.ProcessBatch`
(src/internal/old/processor/group_by_value.go, lines 104-139).  The part
type is abstract; the interpolated `value` expression is the function
`key i batch`, mirroring `g.value.String(i, batch)`.
-/

variable {Part : Type}

/-- Embeds `group.Append(p)` on the entry of `groupMap` for key `v`
(the `exists` branch of the iteration). -/
def appendGroup : List (String × List Part) → String → Part → List (String × List Part)
  | [], v, p => [(v, [p])]
  | (k, ps) :: rest, v, p =>
    if k = v then (k, ps ++ [p]) :: rest else (k, ps) :: appendGroup rest v p

/-- The iteration of `ProcessBatch` over the indexed parts: `ks` is
`groupKeys` (first-seen key order) and `m` is `groupMap`. -/
def goGroup : List (String × Part) → List String → List (String × List Part) →
    List String × List (String × List Part)
  | [], ks, m => (ks, m)
  | (v, p) :: rest, ks, m =>
    match lookupStr m v with
    | some _ => goGroup rest ks (appendGroup m v p)
    | none => goGroup rest (ks ++ [v]) (m ++ [(v, [p])])

/-- Embeds `groupByValueProc.ProcessBatch`: empty batches produce no
groups, otherwise the parts are grouped by their interpolated key and the
groups are emitted in `groupKeys` order. -/
def processBatch (key : Nat → List Part → String) (batch : List Part) : List (List Part) :=
  if batch.length = 0 then []
  else
    let kps := batch.enum.map (fun ip => (key ip.1 batch, ip.2))
    let st := goGroup kps [] []
    st.1.map (fun k => (lookupStr st.2 k).getD [])

/-- Specification-side helper: the distinct keys of `l` in first-seen
order, given the keys already `seen`. -/
def firstSeenFrom : List String → List String → List String
  | [], _ => []
  | v :: rest, seen =>
    if v ∈ seen then firstSeenFrom rest seen else v :: firstSeenFrom rest (seen ++ [v])

/-- Specification-side description of the group routing, written from the
spec sentence: the parts are partitioned by per-part interpolated key,
keeping the original relative order inside each group, and the groups are
listed in first-seen-key order. -/
def specGroups (key : Nat → List Part → String) (batch : List Part) : List (List Part) :=
  (firstSeenFrom ((List.range batch.length).map (fun i => key i batch)) []).map
    (fun k => (batch.enum.filter (fun ip => key ip.1 batch = k)).map Prod.snd)

/-- The parts of the keyed list `l` whose key is `k`, in order. -/
def partsWith (k : String) (l : List (String × Part)) : List Part :=
  (l.filter (fun vp => vp.1 = k)).map Prod.snd

theorem partsWith_nil (k : String) : partsWith k ([] : List (String × Part)) = [] := rfl

theorem partsWith_cons (k v : String) (p : Part) (l : List (String × Part)) :
    partsWith k ((v, p) :: l) =
      if v = k then p :: partsWith k l else partsWith k l := by
  by_cases h : v = k <;> simp [partsWith, h]

theorem firstSeenFrom_mem (v : String) (rest seen : List String) (h : v ∈ seen) :
    firstSeenFrom (v :: rest) seen = firstSeenFrom rest seen := by
  simp [firstSeenFrom, h]

theorem firstSeenFrom_not_mem (v : String) (rest seen : List String) (h : v ∉ seen) :
    firstSeenFrom (v :: rest) seen = v :: firstSeenFrom rest (seen ++ [v]) := by
  simp [firstSeenFrom, h]

theorem lookupStr_appendGroup_self (m : List (String × List Part)) (v : String) (p : Part) :
    lookupStr (appendGroup m v p) v = some ((lookupStr m v).getD [] ++ [p]) := by
  induction m with
  | nil => simp [appendGroup, lookupStr]
  | cons kv rest ih =>
    obtain ⟨k, ps⟩ := kv
    by_cases h : k = v
    · simp [appendGroup, lookupStr, h]
    · simp [appendGroup, lookupStr, h, ih]

theorem lookupStr_appendGroup_ne (m : List (String × List Part)) (v : String) (p : Part)
    (q : String) (hq : q ≠ v) :
    lookupStr (appendGroup m v p) q = lookupStr m q := by
  have hvq : ¬ v = q := fun h => hq h.symm
  induction m with
  | nil => simp [appendGroup, lookupStr, hvq]
  | cons kv rest ih =>
    obtain ⟨k, ps⟩ := kv
    by_cases h : k = v
    · subst h
      simp [appendGroup, lookupStr, hvq]
    · by_cases h2 : k = q
      · simp [appendGroup, lookupStr, h, h2, hq]
      · simp [appendGroup, lookupStr, h, h2, ih]

theorem goGroup_inv_append (ks : List String) (m : List (String × List Part))
    (v : String) (p : Part) (hv : v ∈ ks)
    (hinv : ∀ k, k ∈ ks ↔ (lookupStr m k).isSome) :
    ∀ k, k ∈ ks ↔ (lookupStr (appendGroup m v p) k).isSome := by
  intro k
  by_cases hk : k = v
  · subst hk
    simp [lookupStr_appendGroup_self, hv]
  · rw [lookupStr_appendGroup_ne m v p k hk]
    exact hinv k

theorem goGroup_inv_extend (ks : List String) (m : List (String × List Part))
    (v : String) (p : Part) (hlk : lookupStr m v = none)
    (hinv : ∀ k, k ∈ ks ↔ (lookupStr m k).isSome) :
    ∀ k, k ∈ ks ++ [v] ↔ (lookupStr (m ++ [(v, [p])]) k).isSome := by
  intro k
  rw [lookupStr_append]
  by_cases hk : k = v
  · subst hk
    simp [hlk, lookupStr_singleton]
  · have hvk : ¬ v = k := fun h => hk h.symm
    rcases h2 : lookupStr m k with _ | w
    · have hks : k ∉ ks := by
        intro h
        have := (hinv k).mp h
        rw [h2] at this
        simp at this
      simp [lookupStr_singleton, hvk, List.mem_append, hks, hk]
    · have hks : k ∈ ks := (hinv k).mpr (by simp [h2])
      simp [List.mem_append, hks]

theorem goGroup_fst (l : List (String × Part)) (ks : List String)
    (m : List (String × List Part))
    (hinv : ∀ k, k ∈ ks ↔ (lookupStr m k).isSome) :
    (goGroup l ks m).1 = ks ++ firstSeenFrom (l.map Prod.fst) ks := by
  induction l generalizing ks m with
  | nil => simp [goGroup, firstSeenFrom]
  | cons vp rest ih =>
    obtain ⟨v, p⟩ := vp
    cases hlk : lookupStr m v with
    | some ps =>
      have hv : v ∈ ks := (hinv v).mpr (by simp [hlk])
      rw [List.map_cons, firstSeenFrom_mem v _ ks hv]
      simp only [goGroup, hlk]
      exact ih ks (appendGroup m v p) (goGroup_inv_append ks m v p hv hinv)
    | none =>
      have hv : v ∉ ks := by
        intro h
        have := (hinv v).mp h
        rw [hlk] at this
        simp at this
      rw [List.map_cons, firstSeenFrom_not_mem v _ ks hv]
      simp only [goGroup, hlk]
      rw [ih (ks ++ [v]) (m ++ [(v, [p])]) (goGroup_inv_extend ks m v p hlk hinv)]
      simp

theorem goGroup_lookup_some (l : List (String × Part)) (ks : List String)
    (m : List (String × List Part))
    (hinv : ∀ k, k ∈ ks ↔ (lookupStr m k).isSome) (q : String)
    (hq : q ∈ l.map Prod.fst ∨ (lookupStr m q).isSome) :
    lookupStr (goGroup l ks m).2 q = some ((lookupStr m q).getD [] ++ partsWith q l) := by
  induction l generalizing ks m with
  | nil =>
    rcases hq with hq | hq
    · simp at hq
    · rcases h : lookupStr m q with _ | ps
      · rw [h] at hq
        simp at hq
      · simp [goGroup, partsWith, h]
  | cons vp rest ih =>
    obtain ⟨v, p⟩ := vp
    cases hlk : lookupStr m v with
    | some ps =>
      have hv : v ∈ ks := (hinv v).mpr (by simp [hlk])
      simp only [goGroup, hlk]
      by_cases hqv : q = v
      · subst hqv
        rw [ih ks (appendGroup m q p) (goGroup_inv_append ks m q p hv hinv)
            (Or.inr (by simp [lookupStr_appendGroup_self]))]
        rw [lookupStr_appendGroup_self, hlk, partsWith_cons]
        simp
      · have hvq : ¬ v = q := fun h => hqv h.symm
        have hq2 : q ∈ rest.map Prod.fst ∨ (lookupStr (appendGroup m v p) q).isSome := by
          rw [lookupStr_appendGroup_ne m v p q hqv]
          rcases hq with hq | hq
          · rw [List.map_cons, List.mem_cons] at hq
            rcases hq with hq | hq
            · exact absurd hq hqv
            · exact Or.inl hq
          · exact Or.inr hq
        rw [ih ks (appendGroup m v p) (goGroup_inv_append ks m v p hv hinv) hq2]
        rw [lookupStr_appendGroup_ne m v p q hqv, partsWith_cons]
        simp [hvq]
    | none =>
      simp only [goGroup, hlk]
      by_cases hqv : q = v
      · subst hqv
        have hlk2 : lookupStr (m ++ [(q, [p])]) q = some [p] := by
          rw [lookupStr_append, hlk, lookupStr_singleton]
          simp
        rw [ih (ks ++ [q]) (m ++ [(q, [p])]) (goGroup_inv_extend ks m q p hlk hinv)
            (Or.inr (by simp [hlk2]))]
        rw [hlk2, hlk, partsWith_cons]
        simp
      · have hvq : ¬ v = q := fun h => hqv h.symm
        have hlk2 : lookupStr (m ++ [(v, [p])]) q = lookupStr m q := by
          rw [lookupStr_append]
          rcases h : lookupStr m q with _ | w
          · rw [lookupStr_singleton]
            simp [hvq]
          · rfl
        have hq2 : q ∈ rest.map Prod.fst ∨ (lookupStr (m ++ [(v, [p])]) q).isSome := by
          rw [hlk2]
          rcases hq with hq | hq
          · rw [List.map_cons, List.mem_cons] at hq
            rcases hq with hq | hq
            · exact absurd hq hqv
            · exact Or.inl hq
          · exact Or.inr hq
        rw [ih (ks ++ [v]) (m ++ [(v, [p])]) (goGroup_inv_extend ks m v p hlk hinv) hq2]
        rw [hlk2, partsWith_cons]
        simp [hvq]

theorem partsWith_map (g : (Nat × Part) → String) (l : List (Nat × Part)) (k : String) :
    partsWith k (l.map (fun ip => (g ip, ip.2))) =
      (l.filter (fun ip => g ip = k)).map Prod.snd := by
  induction l with
  | nil => rfl
  | cons ip rest ih =>
    simp only [List.map_cons, partsWith_cons, List.filter_cons]
    by_cases h : g ip = k
    · simp [h, ih]
    · simp [h, ih]

theorem firstSeenFrom_subset (l : List String) (seen : List String) (k : String)
    (hk : k ∈ firstSeenFrom l seen) : k ∈ l := by
  induction l generalizing seen with
  | nil => simp [firstSeenFrom] at hk
  | cons v rest ih =>
    by_cases hv : v ∈ seen
    · rw [firstSeenFrom_mem v rest seen hv] at hk
      exact List.mem_cons_of_mem _ (ih _ hk)
    · rw [firstSeenFrom_not_mem v rest seen hv, List.mem_cons] at hk
      rcases hk with hk | hk
      · simp [hk]
      · exact List.mem_cons_of_mem _ (ih _ hk)

/-- Claim C1: for every non-empty input batch, `group_by_value` partitions
the parts into groups keyed by the per-part interpolated value, keeps the
original relative order of the parts inside each group, and emits the
group batches in first-seen-key order (`processBatch` coincides with the
declarative `specGroups`). -/
theorem groupByValue_matches_spec (key : Nat → List Part → String) (batch : List Part)
    (h : batch ≠ []) :
    processBatch key batch = specGroups key batch := by
  have hlen : ¬ (batch.length = 0) := by simpa using h
  have hinv0 : ∀ k, k ∈ ([] : List String) ↔
      (lookupStr ([] : List (String × List Part)) k).isSome := by
    intro k
    simp [lookupStr]
  have hkeys : (batch.enum.map (fun ip => (key ip.1 batch, ip.2))).map Prod.fst =
      (List.range batch.length).map (fun i => key i batch) := by
    rw [List.map_map]
    rw [show (Prod.fst ∘ fun ip => (key ip.1 batch, ip.2) : Nat × Part → String) =
        ((fun i => key i batch) ∘ Prod.fst) from rfl]
    rw [← List.map_map, List.enum_map_fst]
  simp only [processBatch, hlen, if_false, specGroups]
  rw [goGroup_fst _ [] [] hinv0, List.nil_append, hkeys]
  apply List.map_congr_left
  intro k hk
  have hkmem : k ∈ (batch.enum.map (fun ip => (key ip.1 batch, ip.2))).map Prod.fst := by
    rw [hkeys]
    exact firstSeenFrom_subset _ [] k hk
  rw [goGroup_lookup_some _ [] [] hinv0 k (Or.inl hkmem)]
  simp only [lookupStr, Option.getD_some, Option.getD_none, List.nil_append]
  exact partsWith_map (fun ip => key ip.1 batch) batch.enum k

/-- Witness for C1: the batch `[{k:1,v:a},{k:2,v:b},{k:1,v:c}]` grouped by
the key field produces exactly `[{k:1,v:a},{k:1,v:c}]` followed by
`[{k:2,v:b}]`. -/
theorem groupByValue_witness :
    processBatch (fun i b => (b.getD i ("", "")).1)
        [("1", "a"), ("2", "b"), ("1", "c")] =
      [[("1", "a"), ("1", "c")], [("2", "b")]] := by
  rw [groupByValue_matches_spec (fun i b => (b.getD i ("", "")).1)
      [("1", "a"), ("2", "b"), ("1", "c")] (by decide)]
  decide

end GroupByValue

namespace Grok

/-!
Embedding of `grokProc.Process` (src/internal/old/processor/grok.go,
lines 190-218).  A compiled Grok expression (`*grok.CompiledGrok`, an
external library) is a function from the payload to an optional capture
map: `none` embeds a `ParseTyped` error, `some vs` a capture map with
`vs.length` values.  The capture-value type `V` is abstract, and the
`gabs` container built by the `SetP` loop is embedded as the ordered list
of key assignments applied to an association list (`buildObj`).
-/

variable {V : Type}

/-- One message part as seen by the grok processor: the raw payload
returned by `msg.Get()` plus the structured content set by `SetJSON`.
`Copy` is the identity on this data (shallow metadata copy preserving the
payload). -/
structure GPart (V : Type) where
  body : String
  meta : List (String × String)
  structuredObj : Option (List (String × V))
deriving DecidableEq

/-- Replace an existing key or append a new one: the embedding of one
`gObj.SetP(v, k)` call. -/
def setKey : List (String × V) → String → V → List (String × V)
  | [], k, v => [(k, v)]
  | (k2, v2) :: rest, k, v =>
    if k2 = k then (k2, v) :: rest else (k2, v2) :: setKey rest k v

/-- The `for k, v := range values { gObj.SetP(v, k) }` loop. -/
def buildObj (vs : List (String × V)) : List (String × V) :=
  vs.foldl (fun acc kv => setKey acc kv.1 kv.2) []

/-- The parser loop of `Process`: try each compiled expression in
configuration order; a parse error (`none`) continues, an empty capture
map continues, and the first map with at least one value breaks out.
When no iteration breaks out, `values` is left empty. -/
def firstMatch : List (String → Option (List (String × V))) → String →
    Option (List (String × V))
  | [], _ => none
  | g :: gs, body =>
    match g body with
    | none => firstMatch gs body
    | some vs => if 0 < vs.length then some vs else firstMatch gs body

/-- Embeds `grokProc.Process`: when no expression produced a value the
processor fails with `no pattern matches found`; otherwise a copy of the
input part with the built JSON object as content is returned as the only
output part. -/
def process (gs : List (String → Option (List (String × V)))) (msg : GPart V) :
    Except String (List (GPart V)) :=
  match firstMatch gs msg.body with
  | none => .error "no pattern matches found"
  | some vs => .ok [{ msg with structuredObj := some (buildObj vs) }]

/-- Specification-side predicate: the expression produces at least one
value from the payload. -/
def producesMatch (g : String → Option (List (String × V))) (body : String) : Bool :=
  match g body with
  | some vs => 0 < vs.length
  | none => false

theorem firstMatch_eq_find (gs : List (String → Option (List (String × V))))
    (body : String) :
    firstMatch gs body =
      (gs.find? (fun g => producesMatch g body)).map (fun g => (g body).getD []) := by
  induction gs with
  | nil => rfl
  | cons g gs ih =>
    cases hg : g body with
    | none =>
      have hp : producesMatch g body = false := by simp [producesMatch, hg]
      simp [firstMatch, hg, List.find?_cons, hp, ih]
    | some vs =>
      by_cases hlen : 0 < vs.length
      · have hp : producesMatch g body = true := by simp [producesMatch, hg, hlen]
        simp [firstMatch, hg, hlen, List.find?_cons, hp]
      · have hp : producesMatch g body = false := by simp [producesMatch, hg, hlen]
        simp [firstMatch, hg, hlen, List.find?_cons, hp, ih]

/-- Claim C10: `grokProc.Process` errors (returning no part) exactly when
no configured expression produces at least one value; otherwise it
returns exactly one new part, a copy of the input whose content is the
JSON object built from the first expression, in configuration order, that
produced at least one value, the input part itself being left as it was. -/
theorem grok_process_characterisation (gs : List (String → Option (List (String × V))))
    (msg : GPart V) :
    process gs msg =
      match gs.find? (fun g => producesMatch g msg.body) with
      | none => .error "no pattern matches found"
      | some g => .ok [{ msg with structuredObj := some (buildObj ((g msg.body).getD [])) }] := by
  rw [process, firstMatch_eq_find]
  cases h : gs.find? (fun g => producesMatch g msg.body) with
  | none => rfl
  | some g => rfl

end Grok

namespace Unarchive

/-!
Embedding of the unarchive processor
(src/internal/old/processor/unarchive.go).  A message part carries its
raw payload as a byte list.  The `binary` codec is embedded from the
format documented in the same file (lines 64-71): a four-byte big-endian
message count, then per message a four-byte big-endian length and the
content.
-/

/-- One message part as seen by the unarchive processor. -/
structure UPart where
  body : List Nat
  meta : List (String × String)
  failed : Bool
deriving DecidableEq

/-- Read a four-byte big-endian integer, the embedding of the length and
count fields of the `binary` blob format. -/
def readUInt32BE : List Nat → Option (Nat × List Nat)
  | b0 :: b1 :: b2 :: b3 :: rest => some (((b0 * 256 + b1) * 256 + b2) * 256 + b3, rest)
  | _ => none

/-- Read `n` length-prefixed message contents. -/
def readMessageParts : Nat → List Nat → Option (List (List Nat))
  | 0, _ => some []
  | n + 1, bytes =>
    match readUInt32BE bytes with
    | none => none
    | some (len, rest) =>
      if rest.length < len then none
      else
        match readMessageParts n (rest.drop len) with
        | none => none
        | some tail => some (rest.take len :: tail)

/-- Embeds `message.FromBytes` on the binary blob format documented in
unarchive.go: four bytes of message count, then the length-prefixed
contents; malformed input fails. -/
def fromBytes (bytes : List Nat) : Option (List (List Nat)) :=
  match readUInt32BE bytes with
  | none => none
  | some (n, rest) => readMessageParts n rest

/-- Embeds `binaryUnarchive`: parse the payload as a binary blob and
emit one copy of the part per extracted content. -/
def binaryUnarchive (p : UPart) : Except String (List UPart) :=
  match fromBytes p.body with
  | none => .error "failed to extract binary blob"
  | some contents => .ok (contents.map (fun c => { p with body := c }))

/-- Modelled from the spec: the V2-to-V1 processor wrapper
(`processor.NewV2ToV1Processor`, not under src/) that runs
`unarchiveProc.Process` per part.  Per the spec and the unarchive docs
(unarchive.go lines 40-43), a part whose unarchive call fails remains
unchanged in the batch with its failure flag set, and no batch-level
error is returned. -/
def processV1Batch (proc : UPart → Except String (List UPart)) (batch : List UPart) :
    List UPart :=
  batch.flatMap fun p =>
    match proc p with
    | .ok newParts => newParts
    | .error _ => [{ p with failed := true }]

/-- Claim C9: when a part selected by the unarchive processor fails to
unarchive (invalid format for the configured codec), that part remains
unchanged in the message batch, only its failure flag is set, the other
parts are processed independently, and the whole batch is not failed. -/
theorem unarchive_failure_annotated (proc : UPart → Except String (List UPart))
    (pre post : List UPart) (p : UPart) (e : String) (h : proc p = .error e) :
    processV1Batch proc (pre ++ p :: post) =
      processV1Batch proc pre ++ ({ p with failed := true } :: processV1Batch proc post) := by
  simp only [processV1Batch, List.flatMap_append, List.flatMap_cons, h]
  rfl

/-- Witness for C9: the payload `[0]` is not a valid binary blob (its
count field is truncated), so the part survives unchanged except for the
failure flag, and the neighbouring part is still unarchived. -/
theorem unarchive_failure_witness :
    processV1Batch binaryUnarchive
        [⟨[0, 0, 0, 0], [], false⟩, ⟨[0], [], false⟩] =
      [⟨[0], [], true⟩] := by
  have h := unarchive_failure_annotated binaryUnarchive
    [⟨[0, 0, 0, 0], [], false⟩] [] ⟨[0], [], false⟩
    "failed to extract binary blob" (by rfl)
  exact h.trans (by rfl)

end Unarchive

namespace Pulsar

/-!
Embedding of `pulsarReader.Read` (the pulsar input, concatenated into
src/internal/stream/manager/type_test.go, lines 505-568).  The pulsar
client is external: the consumer handle type `C` is abstract, and
`consumer.Receive` is the oracle `recv`.  `Read` returns the optional
message, whether an ack function was returned, and the optional error.
-/

/-- The fields of an external `pulsar.Message` used by `Read`. -/
structure PulsarMsg where
  payload : List Nat
  idSerialized : String
  topic : String
  publishTimeUnix : Int
  redeliveryCount : Nat
  key : String
  orderingKey : String
  eventTimeUnix : Int
  eventTimeIsZero : Bool
  producerName : String
  properties : List (String × String)

/-- The error cases distinguished by `Read` on a failed `Receive`. -/
inductive RecvErr where
  | canceled
  | deadlineExceeded
  | other : String → RecvErr

/-- The component errors `Read` can surface. -/
inductive CompErr where
  | errNotConnected
  | errTimeout
deriving DecidableEq

/-- A service message under construction. -/
structure SMessage where
  payload : List Nat
  meta : List (String × String)
deriving DecidableEq

/-- Embeds `service.NewMessage`. -/
def newMessage (payload : List Nat) : SMessage := ⟨payload, []⟩

/-- Embeds `msg.MetaSet`: overwrite the key or append it. -/
def metaSet (m : SMessage) (k v : String) : SMessage :=
  { m with meta := Grok.setKey m.meta k v }

/-- The metadata block of `pulsarReader.Read`, applied to a received
message. -/
def buildReadMsg (pulMsg : PulsarMsg) : SMessage :=
  let msg := newMessage pulMsg.payload
  let msg := metaSet msg "pulsar_message_id" pulMsg.idSerialized
  let msg := metaSet msg "pulsar_topic" pulMsg.topic
  let msg := metaSet msg "pulsar_publish_time_unix" (toString pulMsg.publishTimeUnix)
  let msg := metaSet msg "pulsar_redelivery_count" (toString pulMsg.redeliveryCount)
  let msg := if 0 < pulMsg.key.length then metaSet msg "pulsar_key" pulMsg.key else msg
  let msg := if 0 < pulMsg.orderingKey.length then
    metaSet msg "pulsar_ordering_key" pulMsg.orderingKey else msg
  let msg := if pulMsg.eventTimeIsZero = false then
    metaSet msg "pulsar_event_time_unix" (toString pulMsg.eventTimeUnix) else msg
  let msg := if pulMsg.producerName ≠ "" then
    metaSet msg "pulsar_producer_name" pulMsg.producerName else msg
  pulMsg.properties.foldl (fun m kv => metaSet m kv.1 kv.2) msg

/-- Embeds `pulsarReader.Read`: `consumer` is the reader's consumer field
(nil embeds as `none`), `recv` the external `Receive`.  The middle
component records whether an ack function was returned. -/
def read {C : Type} (recv : C → Except RecvErr PulsarMsg) (consumer : Option C) :
    Option SMessage × Bool × Option CompErr :=
  match consumer with
  | none => (none, false, some .errNotConnected)
  | some r =>
    match recv r with
    | .error .canceled => (none, false, some .errTimeout)
    | .error .deadlineExceeded => (none, false, some .errTimeout)
    | .error (.other _) => (none, false, some .errNotConnected)
    | .ok pulMsg => (some (buildReadMsg pulMsg), true, none)

/-- Claim C8: while the input is not connected (its consumer is not
established), `Read` fails with `ErrNotConnected` and yields no message
and no ack function. -/
theorem read_not_connected {C : Type} (recv : C → Except RecvErr PulsarMsg)
    (consumer : Option C) (h : consumer = none) :
    read recv consumer = (none, false, some CompErr.errNotConnected) := by
  subst h
  rfl

/-- Witness for C8: a reader with no consumer established. -/
theorem read_not_connected_witness :
    @read Unit (fun _ => .error (.other "receive failure")) none =
      (none, false, some CompErr.errNotConnected) :=
  read_not_connected (fun _ => .error (.other "receive failure")) none rfl

end Pulsar

namespace FileOutput

/-!
The uppercase pipeline feeding a `lines` codec file output.  The file
output implementation (lib/output/file.go) is not under src/; its codec
is modelled from the spec and from the in-repo docs (src/unnamed/part_000
lines 32-50): each message is appended followed by a line break, and a
multipart (batched) message's last part ends with double delimiters.  The
bloblang mapping `root = content().uppercase()` is modelled from the
spec's uppercase scenario.
-/

/-- Modelled from the spec: the `bloblang: root = content().uppercase()`
processor of the uppercase scenario, applied to an ASCII payload. -/
def upper (s : String) : String := String.mk (s.data.map Char.toUpper)

/-- Concatenation of the written chunks. -/
def concatAll (l : List String) : String := l.foldl (fun a b => a ++ b) ""

/-- Modelled from the spec: the `lines` codec of the file output writing
one batch — each part is followed by one line break, and a multipart
batch's final part is followed by a second one. -/
def writeBatchLines (batch : List String) : String :=
  concatAll (batch.map (fun m => m ++ "\n")) ++ if 1 < batch.length then "\n" else ""

/-- Modelled from the spec: running the uppercase pipeline over the given
input batches and collecting the file contents written by the `lines`
codec file output. -/
def runUppercasePipeline (batches : List (List String)) : String :=
  concatAll (batches.map (fun b => writeBatchLines (b.map upper)))

/-- Counterexample to claim C2 as stated: with the uppercase pipeline the
file contents for the two batches are not the lowercase string the claim
expects. -/
theorem uppercase_multipart_counterexample :
    runUppercasePipeline [["hello 1", "hello 2"], ["hello 3", "hello 4"]] ≠
      "hello 1\nhello 2\n\nhello 3\nhello 4\n\n" := by
  decide

/-- Claim C2 (amended): the uppercase pipeline fed the two batches of two
messages writes, through the `lines` codec file output, the uppercased
parts — each part followed by one newline and each batch's final part by
a second newline. -/
theorem uppercase_multipart_amended :
    runUppercasePipeline [["hello 1", "hello 2"], ["hello 3", "hello 4"]] =
      "HELLO 1\nHELLO 2\n\nHELLO 3\nHELLO 4\n\n" := by
  decide

end FileOutput

namespace FileInput

/-!
The file input with the `lines/multipart` codec.  The implementation is
not under src/; the codec is modelled from the spec: lines are delimited
by line breaks, consecutive non-blank lines form one batch, and a blank
line delimits batch boundaries.
-/

/-- Split a character stream on line breaks. -/
def splitNl : List Char → List Char → List (List Char)
  | [], cur => [cur.reverse]
  | c :: rest, cur =>
    if c = '\n' then cur.reverse :: splitNl rest [] else splitNl rest (c :: cur)

/-- Modelled from the spec: group consecutive non-blank lines into
batches, flushing the current batch at each blank line and at the end of
input. -/
def multipartGo : List String → List String → List (List String)
  | [], cur => if cur.isEmpty then [] else [cur]
  | l :: rest, cur =>
    if l = "" then
      if cur.isEmpty then multipartGo rest [] else cur :: multipartGo rest []
    else multipartGo rest (cur ++ [l])

/-- Modelled from the spec: the `lines/multipart` codec of the file
input, reading whole-file contents into batches of messages. -/
def readMultipart (contents : String) : List (List String) :=
  multipartGo ((splitNl contents.data []).map (fun cs => String.mk cs)) []

/-- Claim C3: reading a file whose contents are `A\nB\n\nC\nD\n` with the
`lines/multipart` codec yields exactly the two batches `["A","B"]` and
`["C","D"]`. -/
theorem readMultipart_two_batches :
    readMultipart "A\nB\n\nC\nD\n" = [["A", "B"], ["C", "D"]] := by
  decide

end FileInput

namespace CacheProc

/-!
The cache processor with operator `add`.  The processor implementation
(lib/processor/cache.go) is not under src/ — only its test `TestCacheAdd`
(concatenated into src/internal/old/processor/grok.go, lines 282-334) —
so the processor and the memory cache are modelled from the spec: `Add`
is distinguished by `ErrKeyAlreadyExists`, and on a failed add the part's
failure flag is set while the payload is left unchanged.
-/

/-- A part consumed by the cache processor: the interpolations
`${!json("k")}` and `${!json("v")}` read the two payload fields. -/
structure CPart where
  kField : String
  vField : String
  failed : Bool
deriving DecidableEq

/-- The cache error distinguishing `Add`. -/
inductive CacheErr where
  | errKeyAlreadyExists
deriving DecidableEq

/-- Modelled from the spec: `Add` on the memory cache — fails with
`ErrKeyAlreadyExists` when the key is present, otherwise stores the
value, so the first write for a key wins. -/
def cacheAdd (c : List (String × String)) (k v : String) :
    Except CacheErr (List (String × String)) :=
  if (lookupStr c k).isSome then .error .errKeyAlreadyExists
  else .ok (c ++ [(k, v)])

/-- Modelled from the spec: the cache processor with operator `add`, key
`${!json("k")}` and value `${!json("v")}` — every part is attempted in
order, a failed add sets only that part's failure flag, the payloads are
never modified, and the processor returns the single batch together with
no batch-level error and the final cache state. -/
def cacheAddProc (batch : List CPart) (c : List (String × String)) :
    List CPart × Option String × List (String × String) :=
  let r := batch.foldl
    (fun (acc : List CPart × List (String × String)) p =>
      match cacheAdd acc.2 p.kField p.vField with
      | .ok c2 => (acc.1 ++ [p], c2)
      | .error _ => (acc.1 ++ [{ p with failed := true }], acc.2))
    ([], c)
  (r.1, none, r.2)

/-- Claim C4: the cache-add processor over an empty cache applied to the
batch `[{k:1,v:A},{k:2,v:B},{k:1,v:C}]` returns the one batch with all
payloads unchanged, no batch-level error, the cache state exactly
`{1:A, 2:B}` (first write wins), and the failure flag set on the third
part only. -/
theorem cache_add_scenario :
    cacheAddProc [⟨"1", "A", false⟩, ⟨"2", "B", false⟩, ⟨"1", "C", false⟩] [] =
      ([⟨"1", "A", false⟩, ⟨"2", "B", false⟩, ⟨"1", "C", true⟩], none,
        [("1", "A"), ("2", "B")]) := by
  rfl

end CacheProc

namespace StreamManager

/-!
The stream manager (src/internal/stream/manager is present only through
its tests).  Modelled from the spec, section 4.9: a registry
`label → Stream` with `Create`, `Read`, `Update`, `Delete`, `Stop`; after
`Stop`, all further operations fail with `ErrTypeClosed`.
-/

/-- The manager errors surfaced by the modelled operations. -/
inductive SMErr where
  | errTypeClosed
  | errStreamExists
  | errStreamDoesNotExist
deriving DecidableEq

/-- Modelled from the spec: the stream manager state — the labelled
registry of stream configs plus the closed flag set by `Stop`. -/
structure SM (Conf : Type) where
  streams : List (String × Conf)
  closed : Bool

variable {Conf : Type}

/-- Modelled from the spec: `Create` — fails with `ErrTypeClosed` once
the manager is stopped, with `ErrStreamExists` on a duplicate label, and
otherwise registers the stream. -/
def create (m : SM Conf) (label : String) (conf : Conf) : Except SMErr (SM Conf) :=
  if m.closed then .error .errTypeClosed
  else if (lookupStr m.streams label).isSome then .error .errStreamExists
  else .ok { m with streams := m.streams ++ [(label, conf)] }

/-- Modelled from the spec: `Read` a stream's config by label. -/
def readStream (m : SM Conf) (label : String) : Except SMErr Conf :=
  if m.closed then .error .errTypeClosed
  else
    match lookupStr m.streams label with
    | some c => .ok c
    | none => .error .errStreamDoesNotExist

/-- Modelled from the spec: `Update` replaces an existing stream's
config. -/
def update (m : SM Conf) (label : String) (conf : Conf) : Except SMErr (SM Conf) :=
  if m.closed then .error .errTypeClosed
  else
    match lookupStr m.streams label with
    | some _ =>
      .ok { m with streams := m.streams.map (fun lc => if lc.1 = label then (lc.1, conf) else lc) }
    | none => .error .errStreamDoesNotExist

/-- Modelled from the spec: `Delete` removes an existing stream after
draining it. -/
def delete (m : SM Conf) (label : String) : Except SMErr (SM Conf) :=
  if m.closed then .error .errTypeClosed
  else
    match lookupStr m.streams label with
    | some _ => .ok { m with streams := m.streams.filter (fun lc => lc.1 ≠ label) }
    | none => .error .errStreamDoesNotExist

/-- Modelled from the spec: `Stop` drains and removes every stream and
marks the manager closed. -/
def stop (_m : SM Conf) : SM Conf := { streams := [], closed := true }

/-- Claim C5: after `Stop` has returned, every further operation on the
stream manager fails with `ErrTypeClosed`; in particular a subsequent
`Create` of any label returns exactly `ErrTypeClosed`. -/
theorem stop_closes_operations (m : SM Conf) (label : String) (conf : Conf) :
    create (stop m) label conf = .error .errTypeClosed ∧
    readStream (stop m) label = .error .errTypeClosed ∧
    update (stop m) label conf = .error .errTypeClosed ∧
    delete (stop m) label = .error .errTypeClosed :=
  ⟨rfl, rfl, rfl, rfl⟩

end StreamManager

namespace Environment

/-!
The service Environment (public/service/environment.go is present only
through its test, src/public/service/environment_test.go).  Modelled from
the spec, section 4.10: per-kind registries of component constructors
keyed by type name, uniqueness enforced per clone, and cloning for
isolation.
-/

/-- Modelled from the spec: an Environment's per-kind constructor
registries, keyed by type name (the stored string stands for the
constructor's config spec). -/
structure Env where
  caches : List (String × String)
  inputs : List (String × String)
  outputs : List (String × String)
  processors : List (String × String)
  rateLimits : List (String × String)
deriving DecidableEq

/-- Modelled from the spec: `Clone` — a copy isolated from later
registrations on the original. -/
def clone (e : Env) : Env := e

/-- Modelled from the spec: register a cache constructor, enforcing
per-clone uniqueness of the type name. -/
def registerCache (e : Env) (name spec : String) : Except String Env :=
  if (lookupStr e.caches name).isSome then .error "component name collision"
  else .ok { e with caches := e.caches ++ [(name, spec)] }

/-- Modelled from the spec: register an input constructor. -/
def registerInput (e : Env) (name spec : String) : Except String Env :=
  if (lookupStr e.inputs name).isSome then .error "component name collision"
  else .ok { e with inputs := e.inputs ++ [(name, spec)] }

/-- Modelled from the spec: register an output constructor. -/
def registerOutput (e : Env) (name spec : String) : Except String Env :=
  if (lookupStr e.outputs name).isSome then .error "component name collision"
  else .ok { e with outputs := e.outputs ++ [(name, spec)] }

/-- Modelled from the spec: register a processor constructor. -/
def registerProcessor (e : Env) (name spec : String) : Except String Env :=
  if (lookupStr e.processors name).isSome then .error "component name collision"
  else .ok { e with processors := e.processors ++ [(name, spec)] }

/-- Modelled from the spec: register a rate-limit constructor. -/
def registerRateLimit (e : Env) (name spec : String) : Except String Env :=
  if (lookupStr e.rateLimits name).isSome then .error "component name collision"
  else .ok { e with rateLimits := e.rateLimits ++ [(name, spec)] }

/-- The component type names referenced by a config, one per constructor
kind (the shape of the test config of `TestEnvironmentAdjustments`). -/
structure ConfigRefs where
  inputType : String
  processorType : String
  outputType : String
  cacheType : String
  rateLimitType : String

/-- Modelled from the spec: a config parses under an environment exactly
when every referenced component type name is registered for its kind. -/
def parses (e : Env) (c : ConfigRefs) : Bool :=
  (lookupStr e.inputs c.inputType).isSome &&
  (lookupStr e.processors c.processorType).isSome &&
  (lookupStr e.outputs c.outputType).isSome &&
  (lookupStr e.caches c.cacheType).isSome &&
  (lookupStr e.rateLimits c.rateLimitType).isSome

/-- Register one constructor of every kind, as `TestEnvironmentAdjustments`
does after taking the clone. -/
def registerAll (e : Env) (c : ConfigRefs) (spec : String) : Except String Env :=
  match registerCache e c.cacheType spec with
  | .error err => .error err
  | .ok e1 =>
    match registerInput e1 c.inputType spec with
    | .error err => .error err
    | .ok e2 =>
      match registerOutput e2 c.outputType spec with
      | .error err => .error err
      | .ok e3 =>
        match registerProcessor e3 c.processorType spec with
        | .error err => .error err
        | .ok e4 => registerRateLimit e4 c.rateLimitType spec

theorem lookupStr_append_self {α : Type} (l : List (String × α)) (n : String) (v : α)
    (h : lookupStr l n = none) : lookupStr (l ++ [(n, v)]) n = some v := by
  rw [lookupStr_append, h, lookupStr_singleton]
  simp

/-- Claim C6: cloning an Environment isolates the clone from later
registrations — for every constructor kind, registering a fresh type name
in the original environment after the clone was taken leaves the clone's
registries unchanged, so a config referencing those types parses under
the updated original environment and fails under the clone. -/
theorem environment_clone_isolated (e : Env) (c : ConfigRefs) (spec : String)
    (h1 : lookupStr e.caches c.cacheType = none)
    (h2 : lookupStr e.inputs c.inputType = none)
    (h3 : lookupStr e.outputs c.outputType = none)
    (h4 : lookupStr e.processors c.processorType = none)
    (h5 : lookupStr e.rateLimits c.rateLimitType = none) :
    ∃ eReg, registerAll e c spec = .ok eReg ∧
      parses eReg c = true ∧
      clone e = e ∧
      parses (clone e) c = false := by
  refine ⟨{ caches := e.caches ++ [(c.cacheType, spec)],
            inputs := e.inputs ++ [(c.inputType, spec)],
            outputs := e.outputs ++ [(c.outputType, spec)],
            processors := e.processors ++ [(c.processorType, spec)],
            rateLimits := e.rateLimits ++ [(c.rateLimitType, spec)] }, ?_, ?_, rfl, ?_⟩
  · simp [registerAll, registerCache, registerInput, registerOutput,
      registerProcessor, registerRateLimit, h1, h2, h3, h4, h5]
  · simp [parses, lookupStr_append_self _ _ _ h1, lookupStr_append_self _ _ _ h2,
      lookupStr_append_self _ _ _ h3, lookupStr_append_self _ _ _ h4,
      lookupStr_append_self _ _ _ h5]
  · simp [clone, parses, h2]

/-- Witness for C6: the five `one_*` component types of
`TestEnvironmentAdjustments`, registered into an empty environment after
cloning it. -/
theorem environment_clone_isolated_witness :
    ∃ eReg,
      registerAll ⟨[], [], [], [], []⟩
          ⟨"one_input", "one_processor", "one_output", "one_cache", "one_rate_limit"⟩
          "spec one" = .ok eReg ∧
      parses eReg
          ⟨"one_input", "one_processor", "one_output", "one_cache", "one_rate_limit"⟩ = true ∧
      clone ⟨[], [], [], [], []⟩ = ⟨[], [], [], [], []⟩ ∧
      parses (clone ⟨[], [], [], [], []⟩)
          ⟨"one_input", "one_processor", "one_output", "one_cache", "one_rate_limit"⟩ = false :=
  environment_clone_isolated ⟨[], [], [], [], []⟩
    ⟨"one_input", "one_processor", "one_output", "one_cache", "one_rate_limit"⟩
    "spec one" rfl rfl rfl rfl rfl

end Environment

namespace LabelLint

/-!
The load-time label lint.  The config linter is not under src/ — only the
`create lint error` case of `TestStreamBuilderSetFields`
(src/unnamed/part_001, lines 621-633) — so the lint is modelled from the
spec: label collisions across input, pipeline processors and output are a
load-time lint error.
-/

/-- The labels assigned to the top-level components of a loaded stream
config: input, the pipeline processors in order, and output. -/
structure StreamLabels where
  inputLabel : String
  processorLabels : List String
  outputLabel : String

/-- All component labels in declaration order. -/
def componentLabels (c : StreamLabels) : List String :=
  c.inputLabel :: (c.processorLabels ++ [c.outputLabel])

/-- Modelled from the spec: walk the labels keeping the non-empty ones
already seen; a non-empty label seen twice is a lint error. -/
def lintGo : List String → List String → Option String
  | [], _ => none
  | l :: rest, seen =>
    if l = "" then lintGo rest seen
    else if l ∈ seen then some ("label " ++ l ++ " collides with a previously defined label")
    else lintGo rest (seen ++ [l])

/-- Modelled from the spec: the load-time label lint over a stream
config. -/
def lintLabels (c : StreamLabels) : Option String :=
  lintGo (componentLabels c) []

theorem lintGo_none_iff (l : List String) (seen : List String) :
    lintGo l seen = none ↔
      ((l.filter (fun s => s ≠ "")).Nodup ∧
        ∀ s ∈ l.filter (fun s => s ≠ ""), s ∉ seen) := by
  induction l generalizing seen with
  | nil => simp [lintGo]
  | cons x rest ih =>
    by_cases hx : x = ""
    · subst hx
      have h1 : lintGo ("" :: rest) seen = lintGo rest seen := by simp [lintGo]
      have h2 : ("" :: rest).filter (fun s => s ≠ "") =
          rest.filter (fun s => s ≠ "") := by
        simp [List.filter_cons]
      rw [h1, h2, ih seen]
    · have h2 : (x :: rest).filter (fun s => s ≠ "") =
          x :: rest.filter (fun s => s ≠ "") := by
        simp [List.filter_cons, hx]
      by_cases hmem : x ∈ seen
      · rw [h2]
        constructor
        · intro h
          rw [show lintGo (x :: rest) seen =
              some ("label " ++ x ++ " collides with a previously defined label") from by
            simp [lintGo, hx, hmem]] at h
          exact Option.noConfusion h
        · rintro ⟨-, hforall⟩
          exact absurd hmem (hforall x (List.mem_cons_self x _))
      · have h1 : lintGo (x :: rest) seen = lintGo rest (seen ++ [x]) := by
          simp [lintGo, hx, hmem]
        rw [h2, h1, ih (seen ++ [x])]
        simp only [List.nodup_cons]
        constructor
        · rintro ⟨hnd, hforall⟩
          have hxnot : x ∉ rest.filter (fun s => s ≠ "") := by
            intro hin
            have := hforall x hin
            simp [List.mem_append] at this
          refine ⟨⟨hxnot, hnd⟩, ?_⟩
          intro s hs
          rcases List.mem_cons.mp hs with hs | hs
          · subst hs
            exact hmem
          · intro hcon
            exact (hforall s hs) (by simp [List.mem_append, hcon])
        · rintro ⟨⟨hxnot, hnd⟩, hforall⟩
          refine ⟨hnd, ?_⟩
          intro s hs
          intro hcon
          rcases List.mem_append.mp hcon with hcon | hcon
          · exact (hforall s (List.mem_cons_of_mem x hs)) hcon
          · have hsx : s = x := by simpa using hcon
            subst hsx
            exact hxnot hs

/-- Claim C7: loading a stream config rejects, with a lint error, any
non-empty label assigned to more than one component among the top-level
input, the pipeline processors and the output, and accepts the same
config when the non-empty labels are pairwise distinct — the lint passes
exactly when the non-empty component labels are nodup. -/
theorem label_lint_iff (c : StreamLabels) :
    lintLabels c = none ↔ ((componentLabels c).filter (fun s => s ≠ "")).Nodup := by
  rw [lintLabels, lintGo_none_iff]
  simp

end LabelLint

end Benthos
